import Mathlib

/-!
Verification of the RakNet repository core against its specification.

The development shallowly embeds the Rust source:
  * `src/protocol/offline.rs` — the `OfflinePackets` id classifier;
  * `src/conn/queue.rs` — `RecoveryQueue` and `OrderedQueue`;
  * `src/client/handshake.rs` — the client handshake task and its
    `Future::poll` implementation.

Machine integers (`u32`) are modelled as `Nat` with an explicit
`% 2^32` at the operations where the source performs wrapping arithmetic.
-/

set_option maxHeartbeats 1000000

/-! ## Offline packets (`src/protocol/offline.rs`) -/

/-- Embedding of `enum OfflinePackets` from `src/protocol/offline.rs`.
A byte is a `Nat` below 256. -/
inductive OfflinePackets where
  | UnconnectedPing
  | OpenConnectRequest
  | OpenConnectReply
  | SessionInfo
  | SessionInfoReply
  | UnconnectedPong
  | UnknownPacket (byte : Nat)
deriving DecidableEq, Repr

/-- Embedding of `OfflinePackets::recv` (match on the id byte). -/
def OfflinePackets.recv (byte : Nat) : OfflinePackets :=
  if byte = 0x01 then .UnconnectedPing
  else if byte = 0x05 then .OpenConnectRequest
  else if byte = 0x06 then .OpenConnectReply
  else if byte = 0x07 then .SessionInfo
  else if byte = 0x08 then .SessionInfoReply
  else if byte = 0x1c then .UnconnectedPong
  else .UnknownPacket byte

/-- Embedding of `OfflinePackets::to_byte`. -/
def OfflinePackets.to_byte : OfflinePackets → Nat
  | .UnconnectedPing => 0x01
  | .OpenConnectRequest => 0x05
  | .OpenConnectReply => 0x06
  | .SessionInfo => 0x07
  | .SessionInfoReply => 0x08
  | .UnconnectedPong => 0x1c
  | .UnknownPacket byte => byte

example : OfflinePackets.recv 0x1c = .UnconnectedPong := by decide

example : OfflinePackets.recv 0x19 = .UnknownPacket 0x19 := by decide

/-! ## OrderedQueue (`src/conn/queue.rs`)

The Rust struct holds a `BTreeMap<u32, T>` and a window `scope : (u32, u32)`.
The map is embedded as an association list kept sorted by key (the iteration
order of a `BTreeMap`), and `u32` arithmetic wraps at `2^32`. -/

/-- Insertion into a key-sorted association list, replacing an existing
binding — the behaviour of `BTreeMap::insert`. -/
def btreeInsert {T : Type} (k : Nat) (v : T) : List (Nat × T) → List (Nat × T)
  | [] => [(k, v)]
  | (k', v') :: rest =>
    if k < k' then (k, v) :: (k', v') :: rest
    else if k = k' then (k, v) :: rest
    else (k', v') :: btreeInsert k v rest

/-- Embedding of `struct OrderedQueue<T>`: the key-sorted queue and the
scope window `(lo, hi)`. -/
structure OrderedQueue (T : Type) where
  queue : List (Nat × T)
  scope : Nat × Nat
deriving Repr, DecidableEq

/-- Embedding of `OrderedQueue::new`. -/
def OrderedQueue.new {T : Type} : OrderedQueue T :=
  { queue := [], scope := (0, 0) }

/-- Embedding of `OrderedQueue::insert(packet, id)`.  Returns the `bool`
of the source together with the updated queue.  `id < scope.0` rejects;
`id > scope.1` sets `scope.1 = id + 1` (wrapping `u32` addition). -/
def OrderedQueue.insert {T : Type} (q : OrderedQueue T) (packet : T) (id : Nat) :
    Bool × OrderedQueue T :=
  if id < q.scope.fst then (false, q)
  else
    let hi := if q.scope.snd < id then (id + 1) % 2 ^ 32 else q.scope.snd
    (true, { queue := btreeInsert id packet q.queue, scope := (q.scope.fst, hi) })

/-- Embedding of `OrderedQueue::clear_out_of_scope`: every entry with key
below `scope.0` is removed. -/
def OrderedQueue.clear_out_of_scope {T : Type} (q : OrderedQueue T) : OrderedQueue T :=
  { q with queue := q.queue.filter (fun p => decide (q.scope.fst ≤ p.fst)) }

/-- Embedding of `OrderedQueue::flush`: first `clear_out_of_scope`, then the
whole map is drained and the values are returned in ascending key order.
The scope is not touched. -/
def OrderedQueue.flush {T : Type} (q : OrderedQueue T) : List T × OrderedQueue T :=
  let cleared := q.clear_out_of_scope
  (cleared.queue.map Prod.snd, { cleared with queue := [] })

/-- Key membership in the association list (`BTreeMap::contains_key`). -/
def containsKey {T : Type} (l : List (Nat × T)) (k : Nat) : Bool :=
  l.any (fun p => decide (p.fst = k))

/-- Embedding of `OrderedQueue::flush_missing`: collect the ids in
`scope.0 .. scope.1` absent from the queue, then set `scope.0` to the first
missing id (or leave it unchanged when none is missing).  The Rust range
`lo..hi` is empty when `hi ≤ lo`, matching `Nat` subtraction here. -/
def OrderedQueue.flush_missing {T : Type} (q : OrderedQueue T) :
    List Nat × OrderedQueue T :=
  let missing := (List.range' q.scope.fst (q.scope.snd - q.scope.fst)).filter
    (fun i => !containsKey q.queue i)
  (missing, { q with scope := (missing.headD q.scope.fst, q.scope.snd) })

/-- Embedding of `OrderedQueue::get_scope`, computing `scope.1 - scope.0`
with wrapping `u32` subtraction. -/
def OrderedQueue.get_scope {T : Type} (q : OrderedQueue T) : Nat :=
  (q.scope.snd + 2 ^ 32 - q.scope.fst) % 2 ^ 32

/-- The public operations on an `OrderedQueue`, used to describe every
reachable state. -/
inductive OrdOp (T : Type) where
  | insert (packet : T) (id : Nat)
  | flush
  | flush_missing
deriving Repr

/-- Run one operation, keeping only the state (the source methods also
return values; reachability only needs the state). -/
def OrdOp.apply {T : Type} (q : OrderedQueue T) : OrdOp T → OrderedQueue T
  | .insert packet id => (q.insert packet id).snd
  | .flush => q.flush.snd
  | .flush_missing => q.flush_missing.snd

/-- The state after running a list of operations from `OrderedQueue::new`. -/
def runOrdOps {T : Type} (ops : List (OrdOp T)) : OrderedQueue T :=
  ops.foldl OrdOp.apply OrderedQueue.new

example :
    runOrdOps [OrdOp.insert (7 : Nat) 0, OrdOp.insert 8 2, OrdOp.flush_missing] =
      { queue := [(0, 7), (2, 8)], scope := (1, 3) } := by decide

/-! ## RecoveryQueue (`src/conn/queue.rs`)

The Rust struct holds a `VecDeque<(u32, Item)>` (head = oldest), a `u32`
capacity and a `u32` running index.  The deque is embedded as a list whose
head is the front of the deque. -/

/-- Embedding of `struct RecoveryQueue<Item>`. -/
structure RecoveryQueue (Item : Type) where
  recovery : List (Nat × Item)
  capacity : Nat
  index : Nat
deriving Repr, DecidableEq

/-- Embedding of `RecoveryQueue::new` (capacity 255). -/
def RecoveryQueue.new {Item : Type} : RecoveryQueue Item :=
  { recovery := [], capacity := 255, index := 0 }

/-- Embedding of `RecoveryQueue::with_capacity`. -/
def RecoveryQueue.with_capacity {Item : Type} (capacity : Nat) : RecoveryQueue Item :=
  { recovery := [], capacity := capacity, index := 0 }

/-- Embedding of `RecoveryQueue::validate_capacity`: pop the front entry
when the length equals the capacity (`pop_front` on an empty deque is a
no-op, as is `List.tail []`). -/
def RecoveryQueue.validate_capacity {Item : Type} (q : RecoveryQueue Item) :
    RecoveryQueue Item :=
  if q.recovery.length = q.capacity then { q with recovery := q.recovery.tail } else q

/-- Embedding of `RecoveryQueue::insert`: `validate_capacity`, push
`(index, item)` at the back, then increment the `u32` index (wrapping).
The returned `Nat` is the index assigned to the item. -/
def RecoveryQueue.insert {Item : Type} (q : RecoveryQueue Item) (item : Item) :
    Nat × RecoveryQueue Item :=
  let q := q.validate_capacity
  (q.index, { q with
    recovery := q.recovery ++ [(q.index, item)]
    index := (q.index + 1) % 2 ^ 32 })

/-- Embedding of `enum RecoveryQueueError`. -/
inductive RecoveryQueueError where
  | Invalid
  | IndexOld
  | Duplicate
deriving Repr, DecidableEq

/-- Modelled from the spec: `recover(index)` is declared in the spec's
RecoveryQueue contract but has no body under `src/` (only the error enum
`RecoveryQueueError` is declared there).  Per the spec it returns the item
at the given index without removing it, `Invalid` for indices never
assigned (the enum's own doc: "from the future"), and `IndexOld` for
indices assigned earlier but no longer cached. -/
def RecoveryQueue.recover {Item : Type} (q : RecoveryQueue Item) (i : Nat) :
    Except RecoveryQueueError Item :=
  match q.recovery.find? (fun p => decide (p.fst = i)) with
  | some p => .ok p.snd
  | none => if i < q.index then .error .IndexOld else .error .Invalid

/-- Modelled from the spec: `remove(index)` drops the entry at the given
index (called on ACK); it is absent from `src/`. -/
def RecoveryQueue.remove {Item : Type} (q : RecoveryQueue Item) (i : Nat) :
    RecoveryQueue Item :=
  { q with recovery := q.recovery.filter (fun p => !decide (p.fst = i)) }

/-- Fold a list of items through `RecoveryQueue.insert`, keeping the state. -/
def insertAll {Item : Type} (q : RecoveryQueue Item) (items : List Item) :
    RecoveryQueue Item :=
  items.foldl (fun q x => (q.insert x).snd) q

/-- The indices handed back by inserting `items` in order. -/
def insertAllIndices {Item : Type} (q : RecoveryQueue Item) (items : List Item) :
    List Nat :=
  match items with
  | [] => []
  | x :: rest => (q.insert x).fst :: insertAllIndices (q.insert x).snd rest

/-- The public operations relevant to recovery: `insert` and the
spec-modelled `remove`. -/
inductive RecOp (Item : Type) where
  | ins (item : Item)
  | rem (i : Nat)
deriving Repr

/-- Run one recovery-queue operation, keeping the state. -/
def RecOp.apply {Item : Type} (q : RecoveryQueue Item) : RecOp Item → RecoveryQueue Item
  | .ins item => (q.insert item).snd
  | .rem i => q.remove i

/-- The state after running a list of operations from `with_capacity C`. -/
def runRecOps {Item : Type} (C : Nat) (ops : List (RecOp Item)) : RecoveryQueue Item :=
  ops.foldl RecOp.apply (RecoveryQueue.with_capacity C)

/-- The number of `insert` calls in an operation list. -/
def numInserts {Item : Type} : List (RecOp Item) → Nat
  | [] => 0
  | .ins _ :: ops => numInserts ops + 1
  | .rem _ :: ops => numInserts ops

example :
    (runRecOps 2 [RecOp.ins (5 : Nat), RecOp.ins 6, RecOp.ins 7]).recovery =
      [(1, 6), (2, 7)] := by decide

example : ((RecoveryQueue.with_capacity 2).insert (5 : Nat)).fst = 0 := by decide

example :
    (runRecOps 2 [RecOp.ins (5 : Nat), RecOp.ins 6, RecOp.ins 7]).recover 0 =
      .error .IndexOld := by rfl

example :
    (runRecOps 2 [RecOp.ins (5 : Nat), RecOp.ins 6, RecOp.ins 7]).recover 9 =
      .error .Invalid := by rfl

/-! ## Client handshake (`src/client/handshake.rs`)

The spawned task writes `(status, done)` pairs into the shared
`HandshakeState`; `poll` returns `Ready(status)` exactly when `done` holds.
The task's interaction with the socket is abstracted into a trace: the
outcome of the `match_ids!` wait, the composed `SessionInfoReply` (its
`mtu_size`), the `send_q.insert` result, and the outcome of the final
receive loop. -/

/-- Embedding of `enum HandshakeStatus`. -/
inductive HandshakeStatus where
  | Created
  | Opening
  | SessionOpen
  | Failed
  | IncompatibleVersion
  | Completed
deriving Repr, DecidableEq

/-- Embedding of `struct HandshakeState` (the waker is omitted: it does not
affect the status/done data). -/
structure HandshakeState where
  status : HandshakeStatus
  done : Bool
deriving Repr, DecidableEq

/-- The loop body of the `match_ids!` macro, recursing over the trace of
`socket.recv` results (`none` = the call returned `Err`, `some buf` = a
datagram with bytes `buf`).  `tries` counts only the `Err` arm, exactly as
in the source; a received datagram whose first byte is not in `ids` just
loops.  Result: `none` when the trace is exhausted with the loop still
waiting on `recv`; `some none` when the loop broke via `tries >= 5`;
`some (some buf)` when a matching packet arrived.  (A zero-length datagram
would leave the 2048-byte buffer stale; the model reads byte 0 of the
received bytes, which agrees with the source for nonempty datagrams.) -/
def matchIdsGo (ids : List Nat) (tries : Nat) :
    List (Option (List Nat)) → Option (Option (List Nat))
  | [] => if 5 ≤ tries then some none else none
  | r :: rest =>
    if 5 ≤ tries then some none
    else match r with
      | none => matchIdsGo ids (tries + 1) rest
      | some buf =>
        if ids.contains (buf.headD 0) then some (some buf)
        else matchIdsGo ids tries rest

/-- Embedding of the `match_ids!` macro: the loop starts with `tries = 0`. -/
def match_ids (ids : List Nat) (trace : List (Option (List Nat))) :
    Option (Option (List Nat)) :=
  matchIdsGo ids 0 trace

/-- How the first wait of the task resolved, when it resolved with a packet:
either `IncompatibleProtocolVersion::compose` succeeded on it, or it did
not and `OpenConnectReply::compose` returned `Ok` (`reply true`) or `Err`
(`reply false`). -/
inductive OpenReply where
  | incompat
  | reply (composeOk : Bool)
deriving Repr, DecidableEq

/-- The abstracted socket interaction of the spawned handshake task. -/
structure HsTrace where
  /-- Result of `match_ids!` (`none` = it returned `None` after the tries
  were exhausted), classified by the two `compose` calls that follow. -/
  openReply : Option OpenReply
  /-- `mtu_size` of the reply produced by `expect_reply!(socket,
  SessionInfoReply)`, or `none` when that macro returned `None`. -/
  sessionReply : Option Nat
  /-- Whether `send_q.insert` of the `ConnectionRequest` returned `Ok`. -/
  connReqSendOk : Bool
  /-- Outcome of the final receive loop: `some b` when a
  `ConnectionAccept` is eventually processed and the `NewConnection`
  send returns `Ok` (`b = true`) or `Err` (`b = false`); `none` when the
  loop never processes one (it then never writes a further state). -/
  finalLoop : Option Bool
deriving Repr, DecidableEq

/-- The sequence of `(status, done)` writes the spawned task performs,
in source order: `Opening` (not done), then the branches of
`ClientHandshake::new`, each `update_state!` with a `done` argument
writing a terminal pair and returning. -/
def clientTaskWrites (mtu : Nat) (t : HsTrace) : List HandshakeState :=
  ⟨.Opening, false⟩ ::
    match t.openReply with
    | none => [⟨.Failed, true⟩]
    | some .incompat => [⟨.IncompatibleVersion, true⟩]
    | some (.reply false) => [⟨.Failed, true⟩]
    | some (.reply true) =>
      ⟨.SessionOpen, false⟩ ::
        match t.sessionReply with
        | none => [⟨.Failed, true⟩]
        | some m =>
          if m ≠ mtu then [⟨.Failed, true⟩]
          else if !t.connReqSendOk then [⟨.Failed, true⟩]
          else match t.finalLoop with
            | none => []
            | some false => [⟨.Failed, true⟩]
            | some true => [⟨.Completed, true⟩]

/-- Every `HandshakeState` the shared cell ever holds: the initial
`Created`/not-done state installed by `ClientHandshake::new`, followed by
the task's writes. -/
def handshakeStates (mtu : Nat) (t : HsTrace) : List HandshakeState :=
  ⟨.Created, false⟩ :: clientTaskWrites mtu t

/-- Embedding of `impl Future for ClientHandshake`: `poll` returns
`Ready(status)` (`some`) when `done` is set, `Pending` (`none`)
otherwise. -/
def ClientHandshake.poll (s : HandshakeState) : Option HandshakeStatus :=
  if s.done then some s.status else none

example :
    handshakeStates 1400 ⟨some (.reply true), some 1200, true, none⟩ =
      [⟨.Created, false⟩, ⟨.Opening, false⟩, ⟨.SessionOpen, false⟩,
        ⟨.Failed, true⟩] := by decide

example : match_ids [6, 25] (List.replicate 5 (some [9])) = none := by decide

example : match_ids [6, 25] (List.replicate 5 none) = some none := by decide

/-! ## Claims about the offline id classifier -/

/-- Claim C10: for every byte `b`, `to_byte (recv b) = b` — the classifier
is total (unknown bytes land in `UnknownPacket b`) and encoding the
classified value round-trips to the original byte. -/
theorem c10_recv_to_byte_round_trip (b : Nat) (hb : b < 256) :
    (OfflinePackets.recv b).to_byte = b := by
  unfold OfflinePackets.recv
  repeat' split
  all_goals simp_all [OfflinePackets.to_byte]

/-- Witness for C10 at the concrete byte `0x1c`. -/
theorem c10_recv_to_byte_round_trip_witness :
    0x1c < 256 ∧ (OfflinePackets.recv 0x1c).to_byte = 0x1c :=
  ⟨by decide, c10_recv_to_byte_round_trip 0x1c (by decide)⟩

/-- Counterexample to claim C8 as stated: the classifier has no
`IncompatibleProtocolVersion` case; the byte `0x19` is classified as the
catch-all `UnknownPacket 0x19` (the enum in `src/protocol/offline.rs`
has no `IncompatibleProtocolVersion` variant at all). -/
theorem c8_byte_0x19_is_unknown :
    OfflinePackets.recv 0x19 = .UnknownPacket 0x19 := by decide

/-- Claim C8 as amended: decoding classifies `0x01` UnconnectedPing,
`0x05` OpenConnectRequest, `0x06` OpenConnectReply, `0x07` SessionInfo,
`0x08` SessionInfoReply, `0x1c` UnconnectedPong, every other byte —
`0x19` included — maps to `UnknownPacket`, and encoding each classified
packet emits the same id byte. -/
theorem c8_offline_id_table :
    (OfflinePackets.recv 0x01 = .UnconnectedPing ∧
      OfflinePackets.to_byte .UnconnectedPing = 0x01) ∧
    (OfflinePackets.recv 0x05 = .OpenConnectRequest ∧
      OfflinePackets.to_byte .OpenConnectRequest = 0x05) ∧
    (OfflinePackets.recv 0x06 = .OpenConnectReply ∧
      OfflinePackets.to_byte .OpenConnectReply = 0x06) ∧
    (OfflinePackets.recv 0x07 = .SessionInfo ∧
      OfflinePackets.to_byte .SessionInfo = 0x07) ∧
    (OfflinePackets.recv 0x08 = .SessionInfoReply ∧
      OfflinePackets.to_byte .SessionInfoReply = 0x08) ∧
    (OfflinePackets.recv 0x1c = .UnconnectedPong ∧
      OfflinePackets.to_byte .UnconnectedPong = 0x1c) ∧
    (∀ b : Nat, b ≠ 0x01 → b ≠ 0x05 → b ≠ 0x06 → b ≠ 0x07 → b ≠ 0x08 →
      b ≠ 0x1c → OfflinePackets.recv b = .UnknownPacket b) := by
  refine ⟨by decide, by decide, by decide, by decide, by decide, by decide, ?_⟩
  intro b h1 h5 h6 h7 h8 hc
  simp [OfflinePackets.recv, h1, h5, h6, h7, h8, hc]

/-- Witness for C8's amended theorem at the concrete byte `0x20`. -/
theorem c8_offline_id_table_witness :
    OfflinePackets.recv 0x20 = .UnknownPacket 0x20 :=
  c8_offline_id_table.2.2.2.2.2.2 0x20 (by decide) (by decide) (by decide)
    (by decide) (by decide) (by decide)

/-! ## Claims about the OrderedQueue -/

/-- Counterexample to claim C2 as stated: an insert with
`index = hi` (here the fresh queue, `lo = hi = 0`, index `0`) is accepted
and stored but does **not** widen the window to `hi = index + 1 = 1`;
the source widens only for `id > scope.1`, strictly. -/
theorem c2_insert_at_hi_does_not_widen :
    ((OrderedQueue.new (T := Nat)).insert 5 0).fst = true ∧
    ((OrderedQueue.new (T := Nat)).insert 5 0).snd.queue = [(0, 5)] ∧
    ((OrderedQueue.new (T := Nat)).insert 5 0).snd.scope.snd = 0 ∧
    ((OrderedQueue.new (T := Nat)).insert 5 0).snd.scope.snd ≠ 1 := by decide

/-- Claim C2 as amended: `insert(packet, index)` discards (returns `false`,
state unchanged) when `index < lo`; when `index ≥ lo` it stores the packet
and returns `true`, widening the window to `hi = index + 1` (wrapping u32)
only when `index > hi` strictly, and leaving the window unchanged when
`lo ≤ index ≤ hi`. -/
theorem c2_insert_spec {T : Type} (q : OrderedQueue T) (packet : T) (id : Nat)
    (hlo : q.scope.fst ≤ id) :
    (∀ packet2 id2, id2 < q.scope.fst → q.insert packet2 id2 = (false, q)) ∧
    (q.insert packet id).fst = true ∧
    (q.insert packet id).snd.queue = btreeInsert id packet q.queue ∧
    (q.insert packet id).snd.scope.fst = q.scope.fst ∧
    (q.scope.snd < id → (q.insert packet id).snd.scope.snd = (id + 1) % 2 ^ 32) ∧
    (id ≤ q.scope.snd → (q.insert packet id).snd.scope.snd = q.scope.snd) := by
  refine ⟨fun packet2 id2 h2 => by simp [OrderedQueue.insert, h2], ?_, ?_, ?_, ?_, ?_⟩ <;>
    simp [OrderedQueue.insert, Nat.not_lt.mpr hlo] <;>
    intro h <;> simp [h, Nat.not_lt.mpr h]

/-- Witness for C2's amended theorem: inserting at index 2 into the fresh
queue widens the window to `(0, 3)`. -/
theorem c2_insert_spec_witness :
    ((OrderedQueue.new (T := Nat)).insert 7 2).fst = true ∧
    ((OrderedQueue.new (T := Nat)).insert 7 2).snd.scope.snd = 3 :=
  ⟨(c2_insert_spec OrderedQueue.new 7 2 (by decide)).2.1,
    by
      have h := (c2_insert_spec (OrderedQueue.new (T := Nat)) 7 2 (by decide)).2.2.2.2.1
      simpa using h (by decide)⟩

/-- Claim C1 evaluated at a failing input (`code_bug`): with payloads
buffered at indices 0 and 2 and scope `(0, 3)`, `flush()` emits **both**
payloads although index 1 was never received, and leaves `lo = 0` instead
of advancing it; the longest contiguous run from `lo` is `[10]` alone.
Spec §9 itself records that the source `flush()` returns all in-scope
entries and calls that behaviour a bug. -/
theorem c1_flush_emits_past_gap :
    ((((OrderedQueue.new (T := Nat)).insert 10 0).snd.insert 20 2).snd.flush).fst
        = [10, 20] ∧
    ((((OrderedQueue.new (T := Nat)).insert 10 0).snd.insert 20 2).snd.flush).snd.scope
        = (0, 3) := by decide

/-! ## Claims about the client handshake -/

/-- Every state the shared handshake cell ever holds is one of six pairs:
the three non-terminal statuses with `done = false`, the three terminal
statuses with `done = true`. -/
theorem handshakeStates_cases (mtu : Nat) (t : HsTrace) (s : HandshakeState)
    (hs : s ∈ handshakeStates mtu t) :
    s ∈ [(⟨.Created, false⟩ : HandshakeState), ⟨.Opening, false⟩,
      ⟨.SessionOpen, false⟩, ⟨.Failed, true⟩, ⟨.IncompatibleVersion, true⟩,
      ⟨.Completed, true⟩] := by
  rcases t with ⟨o, sr, c, f⟩
  rcases o with _ | o
  · simp_all [handshakeStates, clientTaskWrites] <;> tauto
  · rcases o with _ | co
    · simp_all [handshakeStates, clientTaskWrites] <;> tauto
    · rcases co with _ | _
      · simp_all [handshakeStates, clientTaskWrites] <;> tauto
      · rcases sr with _ | m
        · simp_all [handshakeStates, clientTaskWrites] <;> tauto
        · by_cases hm : m = mtu
          · rcases c with _ | _
            · simp_all [handshakeStates, clientTaskWrites] <;> tauto
            · rcases f with _ | fb
              · simp_all [handshakeStates, clientTaskWrites] <;> tauto
              · rcases fb with _ | _ <;> simp_all [handshakeStates, clientTaskWrites] <;> tauto
          · simp_all [handshakeStates, clientTaskWrites] <;> tauto

/-- Claim C7: whenever the `ClientHandshake` future's `poll` returns
`Ready`, the resolved status is `Completed`, `Failed` or
`IncompatibleVersion`; it never resolves with `Created`, `Opening` or
`SessionOpen`, because those are only ever written with `done = false`. -/
theorem c7_poll_ready_terminal (mtu : Nat) (t : HsTrace) (s : HandshakeState)
    (st : HandshakeStatus) (hs : s ∈ handshakeStates mtu t)
    (hp : ClientHandshake.poll s = some st) :
    st = .Completed ∨ st = .Failed ∨ st = .IncompatibleVersion := by
  have hcases := handshakeStates_cases mtu t s hs
  unfold ClientHandshake.poll at hp
  split at hp
  · cases hp
    fin_cases hcases <;> simp_all
  · cases hp

/-- Witness for C7: on the trace where `match_ids!` returns `None`, the
state `(Failed, done)` is reached and `poll` resolves to a terminal
status. -/
theorem c7_poll_ready_terminal_witness :
    HandshakeStatus.Failed = .Completed ∨ HandshakeStatus.Failed = .Failed ∨
      HandshakeStatus.Failed = .IncompatibleVersion :=
  c7_poll_ready_terminal 1400 ⟨none, none, true, none⟩ ⟨.Failed, true⟩ .Failed
    (by decide) (by decide)

/-- Claim C6: if the composed `SessionInfoReply` carries an `mtu_size`
different from the requested `mtu`, the task's last state write is the
terminal `(Failed, done = true)`. -/
theorem c6_mtu_mismatch_fails (mtu m : Nat) (t : HsTrace)
    (hopen : t.openReply = some (.reply true))
    (hrep : t.sessionReply = some m) (hne : m ≠ mtu) :
    (clientTaskWrites mtu t).getLast? = some ⟨.Failed, true⟩ := by
  rcases t with ⟨o, sr, c, f⟩
  simp only at hopen hrep
  subst hopen hrep
  simp [clientTaskWrites, hne]

/-- Witness for C6: requested MTU 1400, reply MTU 1200. -/
theorem c6_mtu_mismatch_fails_witness :
    (clientTaskWrites 1400 ⟨some (.reply true), some 1200, true, none⟩).getLast?
      = some ⟨.Failed, true⟩ :=
  c6_mtu_mismatch_fails 1400 1200 ⟨some (.reply true), some 1200, true, none⟩
    rfl rfl (by decide)

/-! ## Claims about the RecoveryQueue -/

/-- Counterexample to claim C3 as stated: with `with_capacity(0)` two
inserts leave **two** stored entries, exceeding the capacity 0 — the
source pops the front only when `len == capacity`, which a zero-capacity
queue steps over after the first insert. -/
theorem c3_capacity_zero_overflows :
    (insertAll ((RecoveryQueue.with_capacity 0 : RecoveryQueue Nat)) [7, 8]).recovery.length
        = 2 ∧
    ¬ (insertAll ((RecoveryQueue.with_capacity 0 : RecoveryQueue Nat))
        [7, 8]).recovery.length ≤ 0 := by decide

/-- `RecoveryQueue::insert` on a full queue: the front (oldest) entry is
dropped and the fresh entry appended. -/
theorem insert_eq_full {Item : Type} (q : RecoveryQueue Item) (x : Item)
    (h : q.recovery.length = q.capacity) :
    q.insert x = (q.index,
      ⟨q.recovery.tail ++ [(q.index, x)], q.capacity, (q.index + 1) % 2 ^ 32⟩) := by
  unfold RecoveryQueue.insert RecoveryQueue.validate_capacity
  simp [h]

/-- `RecoveryQueue::insert` on a non-full queue: plain append. -/
theorem insert_eq_not_full {Item : Type} (q : RecoveryQueue Item) (x : Item)
    (h : ¬ q.recovery.length = q.capacity) :
    q.insert x = (q.index,
      ⟨q.recovery ++ [(q.index, x)], q.capacity, (q.index + 1) % 2 ^ 32⟩) := by
  unfold RecoveryQueue.insert RecoveryQueue.validate_capacity
  simp [h]

/-- One insert step, tracked on the key list: with capacity `C ≥ 1`,
index `k` and keys `range' (k - min k C) (min k C)`, the insert returns
`k` and the keys become `range' (k + 1 - min (k+1) C) (min (k+1) C)`. -/
theorem insert_keys_step {Item : Type} (C k : Nat) (hC : 1 ≤ C)
    (q : RecoveryQueue Item) (x : Item) (hcap : q.capacity = C)
    (hidx : q.index = k) (hk : k + 1 < 2 ^ 32)
    (hkeys : q.recovery.map Prod.fst = List.range' (k - min k C) (min k C)) :
    (q.insert x).fst = k ∧
    (q.insert x).snd.capacity = C ∧
    (q.insert x).snd.index = k + 1 ∧
    (q.insert x).snd.recovery.map Prod.fst =
      List.range' (k + 1 - min (k + 1) C) (min (k + 1) C) := by
  have hlen : q.recovery.length = min k C := by
    have h := congrArg List.length hkeys
    simpa using h
  by_cases hfull : q.recovery.length = q.capacity
  · have hCk : C ≤ k := by rw [hlen, hcap] at hfull; omega
    have hmin : min k C = C := by omega
    have hmin1 : min (k + 1) C = C := by omega
    rw [insert_eq_full q x hfull]
    refine ⟨hidx, hcap, by rw [hidx]; exact Nat.mod_eq_of_lt hk, ?_⟩
    have htail : q.recovery.tail.map Prod.fst = List.range' (k - C + 1) (C - 1) := by
      rw [List.map_tail, hkeys, hmin]
      have : List.range' (k - C) C = (k - C) :: List.range' (k - C + 1) (C - 1) := by
        have h2 : C = (C - 1) + 1 := by omega
        rw [h2, List.range'_succ]
        simp [← h2]
      rw [this, List.tail_cons]
    simp only [List.map_append, htail, hidx, hmin1]
    have : List.range' (k + 1 - C) C =
        List.range' (k - C + 1) (C - 1) ++ [k] := by
      have h2 : C = (C - 1) + 1 := by omega
      rw [h2, List.range'_concat]
      have e1 : k + 1 - ((C - 1) + 1) = k - C + 1 := by omega
      have e2 : k - C + 1 + 1 * (C - 1) = k := by omega
      rw [e1, e2, ← h2]
    simp [this]
  · have hkC : k < C := by
      rw [hlen, hcap] at hfull
      omega
    have hmin : min k C = k := by omega
    have hmin1 : min (k + 1) C = k + 1 := by omega
    rw [insert_eq_not_full q x hfull]
    refine ⟨hidx, hcap, by rw [hidx]; exact Nat.mod_eq_of_lt hk, ?_⟩
    simp only [List.map_append, hkeys, hidx, hmin, hmin1]
    have : List.range' 0 (k + 1) = List.range' 0 k ++ [k] := by
      simpa using @List.range'_concat 1 0 k
    simp [this]

/-- Characterization of a run of inserts, generalized over the starting
index. -/
theorem insertAll_keys {Item : Type} (C : Nat) (hC : 1 ≤ C) :
    ∀ (items : List Item) (k : Nat) (q : RecoveryQueue Item),
      q.capacity = C → q.index = k → k + items.length < 2 ^ 32 →
      q.recovery.map Prod.fst = List.range' (k - min k C) (min k C) →
      (insertAll q items).capacity = C ∧
      (insertAll q items).index = k + items.length ∧
      (insertAll q items).recovery.map Prod.fst =
        List.range' (k + items.length - min (k + items.length) C)
          (min (k + items.length) C) ∧
      insertAllIndices q items = List.range' k items.length
  | [], k, q, hcap, hidx, _, hkeys => by
    simp [insertAll, insertAllIndices, hcap, hidx, hkeys]
  | x :: rest, k, q, hcap, hidx, hk, hkeys => by
    have hk1 : k + 1 < 2 ^ 32 := by
      simp only [List.length_cons] at hk
      omega
    obtain ⟨h1, h2, h3, h4⟩ := insert_keys_step C k hC q x hcap hidx hk1 hkeys
    have hrest := insertAll_keys C hC rest (k + 1) (q.insert x).snd h2 h3
      (by simp only [List.length_cons] at hk; omega) h4
    obtain ⟨r1, r2, r3, r4⟩ := hrest
    have e : insertAll q (x :: rest) = insertAll (q.insert x).snd rest := rfl
    refine ⟨e ▸ r1, ?_, ?_, ?_⟩
    · rw [e, r2]
      simp
      omega
    · rw [e, r3]
      have e2 : k + (x :: rest).length = k + 1 + rest.length := by simp; omega
      rw [e2]
    · show (q.insert x).fst :: insertAllIndices (q.insert x).snd rest = _
      rw [h1, r4]
      have e3 : (x :: rest).length = rest.length + 1 := by simp
      rw [e3, List.range'_succ]

/-- Claim C3 as amended: for every `RecoveryQueue` created with capacity
`C ≥ 1` and every sequence of fewer than `2^32` inserts (the `u32` index
counter wraps beyond that): the number of stored entries is
`min n C ≤ C`; the returned indices are exactly `0, 1, …, n-1` — strictly
increasing, never reused; the live indices are the contiguous suffix
`[n - min n C, n)` of `[0, n)`; and an insert on a full queue drops
exactly the front (oldest) entry. -/
theorem c3_recovery_bounded {Item : Type} (C : Nat) (items : List Item)
    (hC : 1 ≤ C) (hn : items.length < 2 ^ 32) :
    (insertAll (RecoveryQueue.with_capacity C) items).recovery.length =
      min items.length C ∧
    (insertAll (RecoveryQueue.with_capacity C) items).recovery.length ≤ C ∧
    insertAllIndices (RecoveryQueue.with_capacity C) items =
      List.range items.length ∧
    (insertAll (RecoveryQueue.with_capacity C) items).recovery.map Prod.fst =
      List.range' (items.length - min items.length C) (min items.length C) ∧
    (∀ (r : RecoveryQueue Item) (x : Item), r.recovery.length = r.capacity →
      (r.insert x).snd.recovery = r.recovery.tail ++ [(r.index, x)]) := by
  have h := insertAll_keys C hC items 0 (RecoveryQueue.with_capacity C) rfl rfl
    (by simpa using hn) (by simp [RecoveryQueue.with_capacity])
  obtain ⟨h1, h2, h3, h4⟩ := h
  simp only [Nat.zero_add] at h3 h4
  have hlen : (insertAll (RecoveryQueue.with_capacity C) items).recovery.length =
      min items.length C := by
    have hmap := congrArg List.length h3
    simpa using hmap
  refine ⟨hlen, by rw [hlen]; exact Nat.min_le_right _ _, ?_, h3, ?_⟩
  · rw [h4, List.range_eq_range']
  · intro r x hr
    rw [insert_eq_full r x hr]

/-- Witness for C3's amended theorem: capacity 2, three inserts. -/
theorem c3_recovery_bounded_witness :
    (insertAll (RecoveryQueue.with_capacity 2) [5, 6, 7]).recovery.length =
      min (List.length [5, 6, 7]) 2 ∧
    insertAllIndices ((RecoveryQueue.with_capacity 2 : RecoveryQueue Nat)) [5, 6, 7] =
      List.range (List.length [5, 6, 7]) :=
  ⟨(c3_recovery_bounded 2 [5, 6, 7] (by decide) (by decide)).1,
    (c3_recovery_bounded 2 [5, 6, 7] (by decide) (by decide)).2.2.1⟩

/-- The key invariant of a reachable `RecoveryQueue`: the running index
counts the inserts performed, the cached keys are strictly increasing
(front = oldest), and every cached key is below the running index. -/
def RQKeysInv {Item : Type} (q : RecoveryQueue Item) (n : Nat) : Prop :=
  q.index = n ∧ (q.recovery.map Prod.fst).Pairwise (· < ·) ∧
    ∀ k ∈ q.recovery.map Prod.fst, k < n

/-- `insert` preserves the key invariant, advancing the count. -/
theorem rqInv_insert {Item : Type} (q : RecoveryQueue Item) (x : Item) (n : Nat)
    (hn : n + 1 < 2 ^ 32) (hq : RQKeysInv q n) :
    RQKeysInv (q.insert x).snd (n + 1) := by
  obtain ⟨hidx, hpw, hbound⟩ := hq
  have hbase : ∀ (r : List (Nat × Item)), ((r.map Prod.fst).Pairwise (· < ·)) →
      (∀ k ∈ r.map Prod.fst, k < n) →
      (((r ++ [(q.index, x)]).map Prod.fst).Pairwise (· < ·) ∧
        ∀ k ∈ (r ++ [(q.index, x)]).map Prod.fst, k < n + 1) := by
    intro r hrpw hrb
    constructor
    · rw [List.map_append]
      rw [List.pairwise_append]
      refine ⟨hrpw, by simp, ?_⟩
      intro a ha b hb
      simp only [List.map_cons, List.map_nil, List.mem_singleton] at hb
      rw [hb, hidx]
      exact hrb a ha
    · intro k hk
      rw [List.map_append, List.mem_append] at hk
      rcases hk with hk | hk
      · exact Nat.lt_succ_of_lt (hrb k hk)
      · simp only [List.map_cons, List.map_nil, List.mem_singleton] at hk
        rw [hk, hidx]
        exact Nat.lt_succ_self n
  by_cases hfull : q.recovery.length = q.capacity
  · rw [insert_eq_full q x hfull]
    have htpw : ((q.recovery.tail.map Prod.fst).Pairwise (· < ·)) := by
      rw [List.map_tail]
      exact List.Pairwise.sublist (List.tail_sublist _) hpw
    have htb : ∀ k ∈ q.recovery.tail.map Prod.fst, k < n := by
      intro k hk
      rw [List.map_tail] at hk
      exact hbound k (List.mem_of_mem_tail hk)
    obtain ⟨h1, h2⟩ := hbase q.recovery.tail htpw htb
    exact ⟨by simpa [hidx] using Nat.mod_eq_of_lt hn, h1, h2⟩
  · rw [insert_eq_not_full q x hfull]
    obtain ⟨h1, h2⟩ := hbase q.recovery hpw hbound
    exact ⟨by simpa [hidx] using Nat.mod_eq_of_lt hn, h1, h2⟩

/-- The spec-modelled `remove` preserves the key invariant. -/
theorem rqInv_remove {Item : Type} (q : RecoveryQueue Item) (i n : Nat)
    (hq : RQKeysInv q n) : RQKeysInv (q.remove i) n := by
  obtain ⟨hidx, hpw, hbound⟩ := hq
  have hsub : ((q.recovery.filter (fun p => !decide (p.fst = i))).map
      Prod.fst).Sublist (q.recovery.map Prod.fst) :=
    (List.filter_sublist _).map Prod.fst
  refine ⟨hidx, List.Pairwise.sublist hsub hpw, ?_⟩
  intro k hk
  exact hbound k (hsub.mem hk)

/-- The key invariant holds along any run of inserts and removes whose
insert count stays below `2^32`. -/
theorem rqInv_runAux {Item : Type} :
    ∀ (ops : List (RecOp Item)) (q : RecoveryQueue Item) (n : Nat),
      RQKeysInv q n → n + numInserts ops < 2 ^ 32 →
      RQKeysInv (ops.foldl RecOp.apply q) (n + numInserts ops)
  | [], _, n, hq, _ => by simpa using hq
  | .ins x :: ops, q, n, hq, hn => by
    have hn1 : n + 1 < 2 ^ 32 := by
      have : 1 ≤ numInserts (RecOp.ins x :: ops) := by
        simp [numInserts]
      simp [numInserts] at hn
      omega
    have hstep := rqInv_insert q x n hn1 hq
    have hrec := rqInv_runAux ops (q.insert x).snd (n + 1) hstep
      (by simp [numInserts] at hn ⊢; omega)
    have e : numInserts (RecOp.ins x :: ops) = numInserts ops + 1 := by
      simp [numInserts]
    rw [e]
    have e2 : n + (numInserts ops + 1) = n + 1 + numInserts ops := by omega
    rw [e2]
    exact hrec
  | .rem i :: ops, q, n, hq, hn => by
    have hstep := rqInv_remove q i n hq
    have hrec := rqInv_runAux ops (q.remove i) n hstep
      (by simpa [numInserts] using hn)
    have e : numInserts (RecOp.rem i :: ops) = numInserts ops := by
      simp [numInserts]
    rw [e]
    exact hrec

/-- In a list with strictly increasing keys, a key determines the entry. -/
theorem assoc_mem_unique {Item : Type} :
    ∀ (l : List (Nat × Item)), ((l.map Prod.fst).Pairwise (· < ·)) →
      ∀ (p1 p2 : Nat × Item), p1 ∈ l → p2 ∈ l → p1.fst = p2.fst → p1 = p2
  | [], _, p1, _, h1, _, _ => absurd h1 (List.not_mem_nil p1)
  | a :: l, hpw, p1, p2, h1, h2, he => by
    rw [List.map_cons, List.pairwise_cons] at hpw
    obtain ⟨ha, hl⟩ := hpw
    rcases List.mem_cons.mp h1 with e1 | m1
    · rcases List.mem_cons.mp h2 with e2 | m2
      · rw [e1, e2]
      · exfalso
        have hlt : a.fst < p2.fst := ha p2.fst (List.mem_map_of_mem Prod.fst m2)
        rw [e1] at he
        omega
    · rcases List.mem_cons.mp h2 with e2 | m2
      · exfalso
        have hlt : a.fst < p1.fst := ha p1.fst (List.mem_map_of_mem Prod.fst m1)
        rw [e2] at he
        omega
      · exact assoc_mem_unique l hl p1 p2 m1 m2 he

/-- Claim C4: for every `RecoveryQueue` reachable by inserts and removes
(fewer than `2^32` inserts), `recover(i)` returns `Ok x` exactly when the
entry `(i, x)` is cached — i.e. `i` was inserted and neither evicted nor
removed; it returns `Invalid` exactly for indices never assigned
(`i ≥` the number of inserts), and `IndexOld` exactly for indices
assigned earlier but no longer cached. -/
theorem c4_recover_spec {Item : Type} (C : Nat) (ops : List (RecOp Item)) (i : Nat)
    (h : numInserts ops < 2 ^ 32) :
    (∀ x, (runRecOps C ops).recover i = .ok x ↔ (i, x) ∈ (runRecOps C ops).recovery) ∧
    ((runRecOps C ops).recover i = .error .Invalid ↔ numInserts ops ≤ i) ∧
    ((runRecOps C ops).recover i = .error .IndexOld ↔
      i < numInserts ops ∧ i ∉ (runRecOps C ops).recovery.map Prod.fst) := by
  have hinv : RQKeysInv (runRecOps C ops) (numInserts ops) := by
    have h0 : RQKeysInv ((RecoveryQueue.with_capacity C : RecoveryQueue Item)) 0 :=
      ⟨rfl, by simp [RecoveryQueue.with_capacity], by simp [RecoveryQueue.with_capacity]⟩
    have := rqInv_runAux ops (RecoveryQueue.with_capacity C) 0 h0 (by simpa using h)
    simpa [runRecOps] using this
  obtain ⟨hidx, hpw, hbound⟩ := hinv
  unfold RecoveryQueue.recover
  cases hf : (runRecOps C ops).recovery.find? (fun p => decide (p.fst = i)) with
  | some p =>
    have hpmem := List.mem_of_find?_eq_some hf
    have hpi : p.fst = i := by simpa using List.find?_some hf
    have himem : i ∈ (runRecOps C ops).recovery.map Prod.fst :=
      hpi ▸ List.mem_map_of_mem Prod.fst hpmem
    have hilt : i < numInserts ops := hbound i himem
    refine ⟨?_, ?_, ?_⟩
    · intro x
      constructor
      · intro hx
        have hxe : p.snd = x := by simpa using hx
        have hpe : p = (i, x) := by
          rcases p with ⟨pa, pb⟩
          simp only at hpi hxe
          rw [hpi, hxe]
        exact hpe ▸ hpmem
      · intro hx
        have := assoc_mem_unique (runRecOps C ops).recovery hpw (i, x) p hx hpmem
          (by simp [hpi])
        rw [← this]
    · simp
      omega
    · simp [himem]
  | none =>
    have hnone : ∀ p ∈ (runRecOps C ops).recovery, ¬ p.fst = i := by
      have := List.find?_eq_none.mp hf
      simpa using this
    have hnmem : i ∉ (runRecOps C ops).recovery.map Prod.fst := by
      intro hmem
      obtain ⟨p, hp, hpe⟩ := List.mem_map.mp hmem
      exact hnone p hp hpe
    rw [hidx]
    by_cases hi : i < numInserts ops
    · simp only [if_pos hi]
      refine ⟨?_, ?_, ?_⟩
      · intro x
        constructor
        · intro hx; cases hx
        · intro hx
          exact absurd rfl (hnone (i, x) hx)
      · simp
        omega
      · simp [hi, hnmem]
    · simp only [if_neg hi]
      refine ⟨?_, ?_, ?_⟩
      · intro x
        constructor
        · intro hx; cases hx
        · intro hx
          exact absurd rfl (hnone (i, x) hx)
      · simp
        omega
      · simp
        omega

/-- Witness for C4 at a concrete run: capacity 2, three inserts; index 0
has been evicted, so `recover` reports `IndexOld`. -/
theorem c4_recover_spec_witness :
    (runRecOps 2 [RecOp.ins (5 : Nat), RecOp.ins 6, RecOp.ins 7]).recover 0 =
      .error .IndexOld :=
  ((c4_recover_spec 2 [RecOp.ins 5, RecOp.ins 6, RecOp.ins 7] 0
    (by decide)).2.2).mpr (by decide)

/-! ## Claim C9: the scope invariant of the OrderedQueue -/

/-- Counterexample to claim C9 as stated: from `new()`, insert at ids 0
and 2, call `flush_missing` (which moves `lo` to the first missing id, 1),
then insert at `id = 4294967295` (`u32::MAX`).  The source computes
`scope.1 = id + 1`, which wraps to 0, so the reachable state has
`lo = 1 > 0 = hi` and `get_scope` (u32 `hi - lo`) wraps to `4294967295`
instead of a width. -/
theorem c9_wrap_breaks_scope :
    (runOrdOps [OrdOp.insert (0 : Nat) 0, OrdOp.insert 0 2, OrdOp.flush_missing,
        OrdOp.insert 0 4294967295]).scope = (1, 0) ∧
    ¬ (runOrdOps [OrdOp.insert (0 : Nat) 0, OrdOp.insert 0 2, OrdOp.flush_missing,
        OrdOp.insert 0 4294967295]).scope.fst ≤
      (runOrdOps [OrdOp.insert (0 : Nat) 0, OrdOp.insert 0 2, OrdOp.flush_missing,
        OrdOp.insert 0 4294967295]).scope.snd ∧
    (runOrdOps [OrdOp.insert (0 : Nat) 0, OrdOp.insert 0 2, OrdOp.flush_missing,
        OrdOp.insert 0 4294967295]).get_scope = 4294967295 := by decide

/-- The scope invariant maintained by the queue away from the `u32::MAX`
wrap: the window is ordered and its upper end fits in a `u32`. -/
def ScopeInv {T : Type} (q : OrderedQueue T) : Prop :=
  q.scope.fst ≤ q.scope.snd ∧ q.scope.snd < 2 ^ 32

/-- `insert` preserves the scope invariant when the inserted id is below
`u32::MAX` (so `id + 1` does not wrap). -/
theorem scopeInv_insert {T : Type} (q : OrderedQueue T) (p : T) (id : Nat)
    (hid : id < 2 ^ 32 - 1) (h : ScopeInv q) : ScopeInv (q.insert p id).snd := by
  rcases h with ⟨h1, h2⟩
  unfold OrderedQueue.insert
  split
  · exact ⟨h1, h2⟩
  · constructor <;> dsimp only <;> split <;> omega

/-- `flush` does not touch the scope. -/
theorem flush_scope_eq {T : Type} (q : OrderedQueue T) :
    q.flush.snd.scope = q.scope := rfl

/-- `flush_missing` moves `lo` to a member of `[lo, hi)` (the first
missing id) or leaves it; either way the invariant is preserved. -/
theorem scopeInv_flush_missing {T : Type} (q : OrderedQueue T)
    (h : ScopeInv q) : ScopeInv q.flush_missing.snd := by
  rcases h with ⟨h1, h2⟩
  unfold OrderedQueue.flush_missing
  refine ⟨?_, h2⟩
  dsimp only
  cases hm : (List.range' q.scope.fst (q.scope.snd - q.scope.fst)).filter
      (fun i => !containsKey q.queue i) with
  | nil => simpa using h1
  | cons x xs =>
    have hx : x ∈ (List.range' q.scope.fst (q.scope.snd - q.scope.fst)).filter
        (fun i => !containsKey q.queue i) := by
      rw [hm]; exact List.mem_cons_self x xs
    have hx2 := List.mem_range'_1.mp (List.mem_filter.mp hx).1
    simpa using Nat.le_of_lt (by omega : x < q.scope.snd)

/-- The scope invariant holds after any operation sequence whose inserted
ids stay below `u32::MAX`. -/
theorem scopeInv_runAux {T : Type} :
    ∀ (ops : List (OrdOp T)) (q : OrderedQueue T),
      (∀ p id, OrdOp.insert p id ∈ ops → id < 2 ^ 32 - 1) →
      ScopeInv q → ScopeInv (ops.foldl OrdOp.apply q)
  | [], _, _, hq => hq
  | op :: rest, q, h, hq => by
    have hrest : ∀ p id, OrdOp.insert p id ∈ rest → id < 2 ^ 32 - 1 :=
      fun p id hm => h p id (List.mem_cons_of_mem _ hm)
    have hstep : ScopeInv (OrdOp.apply q op) := by
      cases op with
      | insert p id => exact scopeInv_insert q p id (h p id (List.mem_cons_self _ _)) hq
      | flush =>
        have e : (OrdOp.apply q OrdOp.flush).scope = q.scope := rfl
        unfold ScopeInv
        rw [e]; exact hq
      | flush_missing => exact scopeInv_flush_missing q hq
    exact scopeInv_runAux rest (OrdOp.apply q op) hrest hstep

/-- Claim C9 as amended: for every state reachable from `new()` by
inserts, `flush`es and `flush_missing`s in which every inserted index is
below `u32::MAX = 2^32 - 1` (at `u32::MAX` the source's `id + 1` wraps),
the window satisfies `lo ≤ hi`, and `get_scope` computes the exact
difference `hi - lo` with no underflow. -/
theorem c9_scope_invariant {T : Type} (ops : List (OrdOp T))
    (h : ∀ p id, OrdOp.insert p id ∈ ops → id < 2 ^ 32 - 1) :
    (runOrdOps ops).scope.fst ≤ (runOrdOps ops).scope.snd ∧
    (runOrdOps ops).get_scope =
      (runOrdOps ops).scope.snd - (runOrdOps ops).scope.fst := by
  have hinv : ScopeInv (runOrdOps ops) :=
    scopeInv_runAux ops OrderedQueue.new h ⟨Nat.le_refl 0, by norm_num [OrderedQueue.new]⟩
  rcases hinv with ⟨h1, h2⟩
  refine ⟨h1, ?_⟩
  unfold OrderedQueue.get_scope
  omega

/-- Witness for C9's amended theorem at a concrete operation sequence. -/
theorem c9_scope_invariant_witness :
    (runOrdOps [OrdOp.insert (7 : Nat) 1, OrdOp.flush_missing]).scope.fst ≤
      (runOrdOps [OrdOp.insert (7 : Nat) 1, OrdOp.flush_missing]).scope.snd ∧
    (runOrdOps [OrdOp.insert (7 : Nat) 1, OrdOp.flush_missing]).get_scope =
      (runOrdOps [OrdOp.insert (7 : Nat) 1, OrdOp.flush_missing]).scope.snd -
        (runOrdOps [OrdOp.insert (7 : Nat) 1, OrdOp.flush_missing]).scope.fst :=
  c9_scope_invariant [OrdOp.insert (7 : Nat) 1, OrdOp.flush_missing]
    (by intro p id hm; simp at hm; omega)

/-- Counterexample to claim C5 as stated: five receive attempts that all
return packets whose id is not the expected one (`0x06` OpenConnectReply /
`0x19` IncompatibleProtocolVersion) do **not** fail the handshake — the
`match_ids!` loop is still waiting (`none`), since `tries` is incremented
only when `socket.recv` itself returns `Err`, and no 500 ms interval
exists in the source. -/
theorem c5_unexpected_packets_do_not_count :
    match_ids [0x06, 0x19] (List.replicate 5 (some [0x09])) = none := by decide

/-- Claim C5 as amended: when `socket.recv` fails five times before any
matching packet arrives, `match_ids!` returns `None` (whatever traffic
follows), and the task whose first wait resolved to `None` ends in the
terminal state `(Failed, done = true)`. -/
theorem c5_five_recv_errors_fail (ids : List Nat)
    (rest : List (Option (List Nat))) (mtu : Nat) (t : HsTrace)
    (ht : t.openReply = none) :
    match_ids ids (List.replicate 5 none ++ rest) = some none ∧
    (clientTaskWrites mtu t).getLast? = some ⟨.Failed, true⟩ := by
  constructor
  · show matchIdsGo ids 0 _ = some none
    simp only [List.replicate, List.cons_append, List.nil_append]
    rw [matchIdsGo, if_neg (by decide)]
    rw [matchIdsGo, if_neg (by decide)]
    rw [matchIdsGo, if_neg (by decide)]
    rw [matchIdsGo, if_neg (by decide)]
    rw [matchIdsGo, if_neg (by decide)]
    cases rest <;> simp [matchIdsGo]
  · rcases t with ⟨o, sr, c, f⟩
    simp only at ht
    subst ht
    simp [clientTaskWrites]

/-- Witness for C5's amended theorem at a concrete trace. -/
theorem c5_five_recv_errors_fail_witness :
    match_ids [0x06, 0x19] (List.replicate 5 none ++ [some [0x06]]) = some none ∧
    (clientTaskWrites 1400 ⟨none, none, true, none⟩).getLast?
      = some ⟨.Failed, true⟩ :=
  c5_five_recv_errors_fail [0x06, 0x19] [some [0x06]] 1400
    ⟨none, none, true, none⟩ rfl
